import Mathlib

/-!
Verification development for an EPG (electronic program guide) XML
time-shifting tool.  The definitions below are a shallow embedding of the
program's source:

* the timestamp codec and shifting logic of `XmlTimeAdjuster`
  (`parse_datetime`, `format_datetime`, `_adjust_time` in
  `src/xml_handler.py`),
* the bulk adjuster `adjust_times` and the legacy single-entry adjuster
  `adjust_program_times`,
* the output routine `process_xml` and `process_single_channel`
  (`src/processor.py`),
* channel resolution `find_channel` / `suggest_channels` (`run.py`).

A Python `datetime` in range is represented by the number of seconds since
0001-01-01 00:00:00 (proleptic Gregorian calendar, which is exactly the
calendar of Python's `datetime`).  Strings are Lean `String`s; the
character-level behaviour of `datetime.strptime`'s regex engine and of
`strftime` on glibc (no zero padding for `%Y`) is modelled faithfully.
-/

/-! ## Calendar arithmetic (the proleptic Gregorian calendar of `datetime`) -/

/-- Gregorian leap-year rule, as used by Python's `datetime`. -/
def isLeap (y : Nat) : Bool := y % 4 == 0 && (y % 100 != 0 || y % 400 == 0)

def daysInYear (y : Nat) : Nat := if isLeap y then 366 else 365

def monthsOfYear (y : Nat) : List Nat :=
  [31, if isLeap y then 29 else 28, 31, 30, 31, 30, 31, 31, 30, 31, 30, 31]

/-- Length of month `m` (1-based) of year `y`. -/
def monthLen (y m : Nat) : Nat := (monthsOfYear y).getD (m - 1) 0

/-- Days in the months of year `y` strictly before month `m` (1-based). -/
def daysBeforeMonth (y m : Nat) : Nat := ((monthsOfYear y).take (m - 1)).sum

/-- Total number of days in the years `1, 2, ..., y`: closed form
`365 y + (number of leap years among 1..y)`. -/
def daysToYear (y : Nat) : Nat := 365 * y + y / 4 - y / 100 + y / 400

/-- The `(year, month, day, hour, minute, second)` fields of a `datetime`. -/
structure Fields where
  y : Nat
  m : Nat
  d : Nat
  h : Nat
  mi : Nat
  s : Nat
deriving DecidableEq, Repr

/-- Seconds since 0001-01-01 00:00:00 of a field tuple. -/
def secondsOfFields (f : Fields) : Nat :=
  (daysToYear (f.y - 1) + daysBeforeMonth f.y f.m + (f.d - 1)) * 86400 +
    f.h * 3600 + f.mi * 60 + f.s

/-- The largest representable `datetime` (9999-12-31 23:59:59) in seconds. -/
def maxSec : Nat := daysToYear 9999 * 86400 - 1

/-- Fuelled year loop: starting from year `y`, peel off whole years from the
day count `d`.  With fuel `> d` it always reaches the fixpoint. -/
def yearLoop : Nat → Nat → Nat → Nat × Nat
  | 0, y, d => (y, d)
  | fuel + 1, y, d => if daysInYear y ≤ d then yearLoop fuel (y + 1) (d - daysInYear y) else (y, d)

/-- Peel whole months (given by their lengths) off a day-of-year count. -/
def monthLoop : Nat → List Nat → Nat → Nat × Nat
  | m, [], d => (m, d)
  | m, len :: rest, d => if len ≤ d then monthLoop (m + 1) rest (d - len) else (m, d)

/-- Convert a second count back to calendar fields (the conversion performed
implicitly by Python's `datetime` object). -/
def fieldsOfSeconds (n : Nat) : Fields :=
  let days := n / 86400
  let rem := n % 86400
  let yd := yearLoop (days + 1) 1 days
  let md := monthLoop 1 (monthsOfYear yd.1) yd.2
  ⟨yd.1, md.1, md.2 + 1, rem / 3600, rem % 3600 / 60, rem % 60⟩

/-! ## Digit strings -/

def digitChar (n : Nat) : Char := Char.ofNat (48 + n)

def digitVal (c : Char) : Option Nat :=
  if 48 ≤ c.toNat ∧ c.toNat ≤ 57 then some (c.toNat - 48) else none

/-- Two zero-padded decimal digits, as printed by `strftime` for
`%m %d %H %M %S`. -/
def pad2 (n : Nat) : List Char := [digitChar (n / 10), digitChar (n % 10)]

/-- Fuelled unpadded decimal printer. -/
def natChars : Nat → Nat → List Char
  | 0, n => [digitChar (n % 10)]
  | fuel + 1, n => if n < 10 then [digitChar n] else natChars fuel (n / 10) ++ [digitChar (n % 10)]

/-- Unpadded decimal representation of `n`: this is what glibc `strftime`
prints for `%Y` (no zero padding, so year 99 prints as `99`). -/
def natStr (n : Nat) : List Char := natChars n n

/-- Model of `XmlTimeAdjuster.format_datetime`: `dt.strftime("%Y%m%d%H%M%S +0000")`. -/
def format_datetime (n : Nat) : String :=
  let f := fieldsOfSeconds n
  String.mk (natStr f.y ++ pad2 f.m ++ pad2 f.d ++ pad2 f.h ++ pad2 f.mi ++ pad2 f.s ++
    [' ', '+', '0', '0', '0', '0'])

/-! ## Model of `datetime.strptime(s, "%Y%m%d%H%M%S")`

CPython's `_strptime` compiles the format to the regex
`(?P<Y>\d\d\d\d)(?P<m>1[0-2]|0[1-9]|[1-9])(?P<d>3[01]|[12]\d|0[1-9]|[1-9])`
`(?P<H>2[0-3]|[0-1]\d|\d)(?P<M>[0-5]\d|\d)(?P<S>6[0-1]|[0-5]\d|\d)`,
matches it with `re.match` (leftmost match, alternatives tried in order with
backtracking), raises if unconverted data remains, and then validates the
captured values through the `datetime` constructor.  `tryCands` below is
exactly that backtracking search. -/

def tryCands {α : Type} (k : Nat → List Char → Option α) : List (Nat × List Char) → Option α
  | [] => none
  | (v, r) :: rest =>
    match k v r with
    | some x => some x
    | none => tryCands k rest

/-- Two-digit alternatives of a field regex (value `10 a + b` accepted when
`cond a b`). -/
def twoDigitCand (cond : Nat → Nat → Bool) (cs : List Char) : List (Nat × List Char) :=
  match cs with
  | c1 :: c2 :: r =>
    match digitVal c1, digitVal c2 with
    | some a, some b => if cond a b then [(10 * a + b, r)] else []
    | _, _ => []
  | _ => []

/-- One-digit alternative of a field regex. -/
def oneDigitCand (cond : Nat → Bool) (cs : List Char) : List (Nat × List Char) :=
  match cs with
  | c1 :: r =>
    match digitVal c1 with
    | some a => if cond a then [(a, r)] else []
    | none => []
  | [] => []

/-- Candidates for `%m`, regex `1[0-2]|0[1-9]|[1-9]`. -/
def mCands (cs : List Char) : List (Nat × List Char) :=
  twoDigitCand (fun a b => (a == 1 && b ≤ 2) || (a == 0 && 1 ≤ b)) cs ++
    oneDigitCand (fun a => 1 ≤ a) cs

/-- Candidates for `%d`, regex `3[01]|[12]\d|0[1-9]|[1-9]`. -/
def dCands (cs : List Char) : List (Nat × List Char) :=
  twoDigitCand (fun a b => (a == 3 && b ≤ 1) || a == 1 || a == 2 || (a == 0 && 1 ≤ b)) cs ++
    oneDigitCand (fun a => 1 ≤ a) cs

/-- Candidates for `%H`, regex `2[0-3]|[0-1]\d|\d`. -/
def hCands (cs : List Char) : List (Nat × List Char) :=
  twoDigitCand (fun a b => (a == 2 && b ≤ 3) || a ≤ 1) cs ++ oneDigitCand (fun _ => true) cs

/-- Candidates for `%M`, regex `[0-5]\d|\d`. -/
def miCands (cs : List Char) : List (Nat × List Char) :=
  twoDigitCand (fun a _ => a ≤ 5) cs ++ oneDigitCand (fun _ => true) cs

/-- Candidates for `%S`, regex `6[0-1]|[0-5]\d|\d` (61 allows leap seconds at
the regex level; the `datetime` constructor still rejects 60 and 61). -/
def sCands (cs : List Char) : List (Nat × List Char) :=
  twoDigitCand (fun a b => (a == 6 && b ≤ 1) || a ≤ 5) cs ++ oneDigitCand (fun _ => true) cs

/-- The `%Y` field: exactly four digits. -/
def matchY (cs : List Char) : Option (Nat × List Char) :=
  match cs with
  | c1 :: c2 :: c3 :: c4 :: r =>
    match digitVal c1, digitVal c2, digitVal c3, digitVal c4 with
    | some a, some b, some c, some d => some (((a * 10 + b) * 10 + c) * 10 + d, r)
    | _, _, _, _ => none
  | _ => none

/-- Leftmost regex match of the whole strptime pattern: the first full-pattern
path in alternation/backtracking order, together with the unconsumed rest. -/
def runMatch (cs : List Char) : Option (Fields × List Char) :=
  match matchY cs with
  | none => none
  | some (y, r0) =>
    tryCands (fun m r1 =>
      tryCands (fun d r2 =>
        tryCands (fun h r3 =>
          tryCands (fun mi r4 =>
            tryCands (fun s r5 => some (⟨y, m, d, h, mi, s⟩, r5)) (sCands r4)) (miCands r3))
          (hCands r2)) (dCands r1)) (mCands r0)

/-- Validation performed by the `datetime` constructor. -/
def validFields (f : Fields) : Bool :=
  1 ≤ f.y && f.y ≤ 9999 && 1 ≤ f.m && f.m ≤ 12 && 1 ≤ f.d && f.d ≤ monthLen f.y f.m &&
    f.h ≤ 23 && f.mi ≤ 59 && f.s ≤ 59

/-- Model of `XmlTimeAdjuster.parse_datetime`: drop everything from the first
space on (`dt_str.split(' ')[0]`), run `strptime`; any failure (regex
mismatch, unconverted data, constructor `ValueError`) is caught and turned
into `None`. -/
def parse_datetime (s : String) : Option Nat :=
  let cs := s.data.takeWhile (fun c => c ≠ ' ')
  match runMatch cs with
  | none => none
  | some (f, rest) =>
    if rest = [] ∧ validFields f then some (secondsOfFields f) else none

/-- Model of `XmlTimeAdjuster._adjust_time`: parse, add `timedelta(seconds=off)`,
format.  A parse failure gives `None`; an out-of-range result makes
`dt + timedelta` raise (`OverflowError`), which the method's `except` turns
into `None` as well. -/
def adjust_time (t : String) (off : Int) : Option String :=
  match parse_datetime t with
  | none => none
  | some n =>
    let n2 : Int := (n : Int) + off
    if 0 ≤ n2 ∧ n2 ≤ (maxSec : Int) then some (format_datetime n2.toNat) else none

/-! ## XML document model

An `ElementTree` element: tag (`none` models a comment node, whose tag is the
`ET.Comment` function object), ordered attribute dictionary, text, tail and
child list.  `attrGet`/`attrSet` are Python-dict `get`/`__setitem__` on the
attribute dictionary (insertion ordered, setting an existing key keeps its
position). -/

mutual
inductive Element where
  | elem (tag : Option String) (attrs : List (String × String)) (text : String) (tail : String)
      (children : ElementList)
inductive ElementList where
  | nil
  | cons (e : Element) (es : ElementList)
end

def Element.tag : Element → Option String
  | .elem t _ _ _ _ => t

def Element.attrs : Element → List (String × String)
  | .elem _ a _ _ _ => a

def Element.text : Element → String
  | .elem _ _ tx _ _ => tx

def Element.tail : Element → String
  | .elem _ _ _ tl _ => tl

def Element.children : Element → ElementList
  | .elem _ _ _ _ ch => ch

def attrGet (a : List (String × String)) (k : String) : Option String :=
  match a with
  | [] => none
  | (k2, v) :: rest => if k2 = k then some v else attrGet rest k

def attrSet (a : List (String × String)) (k v : String) : List (String × String) :=
  match a with
  | [] => [(k, v)]
  | (k2, v2) :: rest => if k2 = k then (k, v) :: rest else (k2, v2) :: attrSet rest k v

/-- Python truthiness of an optional string (`None` and `""` are falsy). -/
def optTruthy : Option String → Bool
  | some s => s != ""
  | none => false

/-! ## Offset configuration -/

/-- A per-channel configuration dict; the `offset` key may be absent
(`channel_config.get('offset', default)` then falls back). -/
structure ChannelCfg where
  offsetVal : Option Int
deriving DecidableEq, Repr

structure OffsetConfig where
  channels : List (String × ChannelCfg)
  defaultOffset : Int
deriving DecidableEq, Repr

def chanLookup (cfg : OffsetConfig) (id : String) : Option ChannelCfg :=
  match cfg.channels.find? (fun p => p.1 == id) with
  | some p => some p.2
  | none => none

/-- Offset resolution: `self.channel_offsets.get(channel_id, {})` followed by
`.get('offset', self.default_offset)` (identical in `adjust_times` and in
`process_single_channel`). -/
def effectiveOffset (cfg : OffsetConfig) (id : String) : Int :=
  match chanLookup cfg id with
  | none => cfg.defaultOffset
  | some cc =>
    match cc.offsetVal with
    | some o => o
    | none => cfg.defaultOffset

/-! ## The bulk adjuster `XmlTimeAdjuster.adjust_times` -/

/-- Which elements the `findall` of `adjust_times` selects: all `programme`
descendants when `specific_channel` is falsy (`None` or `""`), otherwise the
`programme` descendants whose `channel` attribute equals it. -/
def selects (scope : Option String) (tag : Option String) (a : List (String × String)) : Bool :=
  tag == some "programme" &&
    match scope with
    | some c => if c == "" then true else attrGet a "channel" == some c
    | none => true

/-- One `start`/`stop` block of the adjuster loop body: if the attribute is
present and truthy, try `_adjust_time`; if that returns a truthy value, write
it back, otherwise leave the attribute untouched. -/
def setTimeAttr (key : String) (off : Int) (a : List (String × String)) :
    List (String × String) :=
  match attrGet a key with
  | some st =>
    if st != "" then
      match adjust_time st off with
      | some ns => if ns != "" then attrSet a key ns else a
      | none => a
    else a
  | none => a

/-- Loop body acting on the attributes of one selected programme, given the
resolved offset: shift `start` if present, truthy and adjustable, then `stop`
likewise. -/
def adjustStartStop (off : Int) (a : List (String × String)) : List (String × String) :=
  setTimeAttr "stop" off (setTimeAttr "start" off a)

/-- Loop body of `adjust_times` for one selected programme: skip it entirely
when its `channel` attribute is falsy, otherwise resolve the offset and shift
`start`/`stop`. -/
def processBody (cfg : OffsetConfig) (a : List (String × String)) : List (String × String) :=
  match attrGet a "channel" with
  | some c => if c != "" then adjustStartStop (effectiveOffset cfg c) a else a
  | none => a

mutual
/-- In-place mutation performed by the `adjust_times` loop on the subtree
rooted at this element (the element itself included, since `.//programme`
matches descendants at any depth). -/
def adjustE (cfg : OffsetConfig) (scope : Option String) : Element → Element
  | .elem t a tx tl ch =>
    .elem t (if selects scope t a then processBody cfg a else a) tx tl (adjustEL cfg scope ch)
def adjustEL (cfg : OffsetConfig) (scope : Option String) : ElementList → ElementList
  | .nil => .nil
  | .cons e es => .cons (adjustE cfg scope e) (adjustEL cfg scope es)
end

mutual
/-- Contribution of this subtree to `self.processed_programmes`: one per
selected programme whose `channel` attribute is truthy. -/
def countE (scope : Option String) : Element → Nat
  | .elem t a _ _ ch =>
    (if selects scope t a && optTruthy (attrGet a "channel") then 1 else 0) + countEL scope ch
def countEL (scope : Option String) : ElementList → Nat
  | .nil => 0
  | .cons e es => countE scope e + countEL scope es
end

mutual
/-- Contribution of this subtree to the `self.processed_channels` set. -/
def chansE (scope : Option String) : Element → Finset String
  | .elem t a _ _ ch =>
    (if selects scope t a && optTruthy (attrGet a "channel") then
      match attrGet a "channel" with
      | some c => {c}
      | none => ∅
    else ∅) ∪ chansEL scope ch
def chansEL (scope : Option String) : ElementList → Finset String
  | .nil => ∅
  | .cons e es => chansE scope e ∪ chansEL scope es
end

/-- Model of `XmlTimeAdjuster.adjust_times` on a freshly created adjuster:
`root.findall('.//programme')` selects descendants of the root (never the
root element itself); returns the mutated tree together with the
`processed_programmes` count and the `processed_channels` set. -/
def adjust_times (cfg : OffsetConfig) (scope : Option String) (root : Element) :
    Element × Nat × Finset String :=
  match root with
  | .elem t a tx tl ch =>
    (.elem t a tx tl (adjustEL cfg scope ch), countEL scope ch, chansEL scope ch)

/-- Model of the legacy `XmlTimeAdjuster.adjust_program_times`: shifts
`start`/`stop` of the given element with the explicit offset (no `channel`
check, no recursion into children) and increments `processed_programmes` by
one; `processed_channels` is not touched, and no modelled operation can raise,
so the `except` branch recording an error is unreachable. -/
def adjust_program_times (off : Int) : Element → Element × Nat
  | .elem t a tx tl ch => (.elem t (adjustStartStop off a) tx tl ch, 1)

/-! ## `process_xml` and `process_single_channel` -/

/-- Text of the informational comment inserted by `process_xml`. -/
def commentText (now : String) (n : Nat) : String :=
  " Processado em " ++ now ++ " - " ++ toString n ++ " programas ajustados "

/-- Model of `XmlTimeAdjuster.process_xml` after a successful parse: run
`adjust_times` over all channels, then insert the informational comment as
the first child of the root before writing.  `now` is the wall-clock
timestamp string. -/
def process_xml (cfg : OffsetConfig) (now : String) (root : Element) :
    Element × Nat × Finset String :=
  match adjust_times cfg none root with
  | (r2, n, st) =>
    match r2 with
    | .elem t a tx tl ch =>
      (.elem t a tx tl (.cons (.elem none [] (commentText now n) "" .nil) ch), n, st)

mutual
/-- Number of `programme` descendants of this subtree (subtree root included)
whose `channel` attribute equals `id` - the length of
`root.findall(".//programme[@channel='id']")`. -/
def countProg (id : String) : Element → Nat
  | .elem t a _ _ ch =>
    (if t == some "programme" && attrGet a "channel" == some id then 1 else 0) + countProgL id ch
def countProgL (id : String) : ElementList → Nat
  | .nil => 0
  | .cons e es => countProg id e + countProgL id es
end

/-- Model of `ScheduleProcessor.process_single_channel` after a successful
parse: count the programmes of the channel; if none, return early with only a
warning (`none`); otherwise run `adjust_times` restricted to the channel on a
fresh adjuster, write the tree, and set `stats['processed_programmes']` to
`len(programmes)`.  No comment node is inserted on this path. -/
def process_single_channel (cfg : OffsetConfig) (id : String) (root : Element) :
    Option (Element × Nat) :=
  let k :=
    match root with
    | .elem _ _ _ _ ch => countProgL id ch
  if k = 0 then none
  else some ((adjust_times cfg (some id) root).1, k)

mutual
/-- Whether the subtree contains any `programme` element (root included). -/
def hasProg : Element → Bool
  | .elem t _ _ _ ch => t == some "programme" || hasProgL ch
def hasProgL : ElementList → Bool
  | .nil => false
  | .cons e es => hasProg e || hasProgL es
end

/-! ## Frame relation for the bulk adjuster -/

mutual
/-- Frame relation: the second tree differs from the first at most in the
`start` and `stop` attribute values of elements selected by `scope`; tags,
texts, tails, tree shape and all other attribute lookups coincide, and
unselected elements keep their attribute list unchanged. -/
def FrameOK (scope : Option String) : Element → Element → Prop
  | .elem t a tx tl ch, .elem t2 a2 tx2 tl2 ch2 =>
    t2 = t ∧ tx2 = tx ∧ tl2 = tl ∧
      (∀ k, k ≠ "start" → k ≠ "stop" → attrGet a2 k = attrGet a k) ∧
      (selects scope t a = false → a2 = a) ∧ FrameOKL scope ch ch2
def FrameOKL (scope : Option String) : ElementList → ElementList → Prop
  | .nil, .nil => True
  | .cons e es, .cons e2 es2 => FrameOK scope e e2 ∧ FrameOKL scope es es2
  | .nil, .cons _ _ => False
  | .cons _ _, .nil => False
end

/-! ## Channel resolution (`run.py`) -/

structure Channel where
  id : String
  name : String
deriving DecidableEq, Repr

/-- Python `s.startswith(p)` on char lists (pattern first). -/
def startsWithCh : List Char → List Char → Bool
  | [], _ => true
  | _ :: _, [] => false
  | p :: ps, c :: cs => p == c && startsWithCh ps cs

/-- Python `p in s` on char lists (pattern first). -/
def containsCh : List Char → List Char → Bool
  | pat, [] => startsWithCh pat []
  | pat, c :: cs => startsWithCh pat (c :: cs) || containsCh pat cs

/-- Characters of `s.lower()`: `String.toLower` maps `Char.toLower` over the
characters (ASCII case folding). -/
def lowerData (s : String) : List Char := s.data.map Char.toLower

/-- The four tiers of `EPGProcessor.find_channel`, numbered 0-3: exact id,
exact name, id substring, name substring (all case-insensitive). -/
def tier (i : Nat) (s : List Char) (c : Channel) : Bool :=
  match i with
  | 0 => lowerData c.id == s
  | 1 => lowerData c.name == s
  | 2 => containsCh s (lowerData c.id)
  | 3 => containsCh s (lowerData c.name)
  | _ => false

/-- Model of `EPGProcessor.find_channel`: four sequential linear scans, first
hit wins (an empty catalog returns `None` immediately, which coincides with
the scans all failing). -/
def find_channel (term : String) (chans : List Channel) : Option Channel :=
  let s := lowerData term
  match chans.find? (fun c => lowerData c.id == s) with
  | some c => some c
  | none =>
    match chans.find? (fun c => lowerData c.name == s) with
    | some c => some c
    | none =>
      match chans.find? (fun c => containsCh s (lowerData c.id)) with
      | some c => some c
      | none => chans.find? (fun c => containsCh s (lowerData c.name))

/-- Additive score of `EPGProcessor.suggest_channels`: id substring +10,
name substring +5, id prefix +15, name prefix +8. -/
def score (s : List Char) (c : Channel) : Nat :=
  (if containsCh s (lowerData c.id) then 10 else 0) +
    (if containsCh s (lowerData c.name) then 5 else 0) +
    (if startsWithCh s (lowerData c.id) then 15 else 0) +
    (if startsWithCh s (lowerData c.name) then 8 else 0)

/-- Stable descending insertion by score: a later element passes over exactly
the elements of strictly greater score. -/
def insertPair (x : Channel × Nat) : List (Channel × Nat) → List (Channel × Nat)
  | [] => [x]
  | y :: ys => if y.2 ≤ x.2 then x :: y :: ys else y :: insertPair x ys

/-- Stable descending sort by score.  Python's `list.sort(key=..., reverse=True)`
is a stable sort under the same order, and any two stable sorts of the same
list under the same key agree, so this insertion sort is its model. -/
def sortPairs : List (Channel × Nat) → List (Channel × Nat)
  | [] => []
  | x :: xs => insertPair x (sortPairs xs)

/-- Model of `EPGProcessor.suggest_channels`: score every channel in catalog
order, keep the pairs with positive score, sort by descending score (stable),
return the first `limit` channels. -/
def suggest_channels (term : String) (chans : List Channel) (limit : Nat) : List Channel :=
  let s := lowerData term
  let pairs := (chans.map (fun c => (c, score s c))).filter (fun p => 0 < p.2)
  ((sortPairs pairs).take limit).map Prod.fst

/-! ## Auxiliary accessors and concrete fixtures used by witnesses -/

/-- Length of `root.findall(".//programme[@channel='id']")`: the number of
`programme` descendants of the root whose `channel` attribute equals `id`. -/
def countMatching (id : String) (root : Element) : Nat :=
  match root with
  | .elem _ _ _ _ ch => countProgL id ch

def firstChild (e : Element) : Option Element :=
  match e with
  | .elem _ _ _ _ .nil => none
  | .elem _ _ _ _ (.cons c _) => some c

/-- Fixture: a programme entry with a malformed `start` value. -/
def progBadStart : Element :=
  .elem (some "programme") [("channel", "A"), ("start", "notadate")] "" "" .nil

/-- Fixture: a programme entry whose `start` and `stop` values both fail to
parse. -/
def progBadBoth : Element :=
  .elem (some "programme")
    [("channel", "A"), ("start", "notadate"), ("stop", "alsonotadate")] "" "" .nil

/-- Fixture: a programme entry that has a `start` time but no `channel`
attribute. -/
def progNoChannel : Element :=
  .elem (some "programme") [("start", "20240101000000")] "" "" .nil

/-- Fixture: a programme entry of channel `A` with no `start`/`stop`. -/
def progA : Element := .elem (some "programme") [("channel", "A")] "" "" .nil

def rootNoChannel : Element :=
  .elem (some "tv") [] "" "" (.cons progNoChannel .nil)

def rootA : Element := .elem (some "tv") [] "" "" (.cons progA .nil)

/-- Fixture: a document with two programmes of channel `A`, one of channel
`B` and one without a channel. -/
def rootMixed : Element :=
  .elem (some "tv") [] "" ""
    (.cons progA (.cons (.elem (some "programme") [("channel", "B")] "" "" .nil)
      (.cons progA (.cons progNoChannel .nil))))

/-- Fixture: an offset configuration with one per-channel entry carrying an
offset, one whose dict lacks the `offset` key, and default 30. -/
def cfgFix : OffsetConfig := ⟨[("A", ⟨some 42⟩), ("B", ⟨none⟩)], 30⟩

/-- Fixture: a configuration with no per-channel entries and default 3600. -/
def cfgHour : OffsetConfig := ⟨[], 3600⟩

/-! # Theorems

General helper lemmas first, then one theorem per claim (with its witness or
counterexample). -/

/-! ## Calendar lemmas -/

theorem daysInYear_ge (y : Nat) : 365 ≤ daysInYear y := by
  unfold daysInYear; split <;> omega

theorem daysInYear_eq (y : Nat) :
    daysInYear y = if y % 4 = 0 ∧ (y % 100 ≠ 0 ∨ y % 400 = 0) then 366 else 365 := by
  by_cases h1 : y % 4 = 0 <;> by_cases h2 : y % 100 = 0 <;> by_cases h3 : y % 400 = 0 <;>
    simp [daysInYear, isLeap, h1, h2, h3]

set_option maxHeartbeats 1600000 in
theorem daysToYear_succ (y : Nat) : daysToYear (y + 1) = daysToYear y + daysInYear (y + 1) := by
  by_cases h1 : (y + 1) % 4 = 0
  · by_cases h2 : (y + 1) % 100 = 0
    · by_cases h3 : (y + 1) % 400 = 0
      · have hv : daysInYear (y + 1) = 366 := by
          rw [daysInYear_eq]
          exact if_pos ⟨h1, Or.inr h3⟩
        rw [hv]
        clear hv
        unfold daysToYear
        omega
      · have hv : daysInYear (y + 1) = 365 := by
          rw [daysInYear_eq]
          refine if_neg ?_
          rintro ⟨-, hor⟩
          rcases hor with hb | hc
          · exact hb h2
          · exact h3 hc
        rw [hv]
        clear hv
        unfold daysToYear
        omega
    · have hv : daysInYear (y + 1) = 366 := by
        rw [daysInYear_eq]
        exact if_pos ⟨h1, Or.inl h2⟩
      rw [hv]
      clear hv
      unfold daysToYear
      omega
  · have hv : daysInYear (y + 1) = 365 := by
      rw [daysInYear_eq]
      exact if_neg (fun hc => h1 hc.1)
    rw [hv]
    clear hv
    unfold daysToYear
    omega

theorem daysToYear_mono {a b : Nat} (h : a ≤ b) : daysToYear a ≤ daysToYear b := by
  unfold daysToYear
  have h1 : a / 4 ≤ b / 4 := Nat.div_le_div_right h
  have h2 : a / 100 ≤ b / 100 := Nat.div_le_div_right h
  have h3 : a / 400 ≤ b / 400 := Nat.div_le_div_right h
  omega

theorem yearLoop_spec : ∀ (fuel y d : Nat), d < fuel → 1 ≤ y →
    1 ≤ (yearLoop fuel y d).1 ∧ y ≤ (yearLoop fuel y d).1 ∧
      (yearLoop fuel y d).2 < daysInYear (yearLoop fuel y d).1 ∧
      daysToYear ((yearLoop fuel y d).1 - 1) + (yearLoop fuel y d).2 = daysToYear (y - 1) + d := by
  intro fuel
  induction fuel with
  | zero => intro y d hd; omega
  | succ fuel ih =>
    intro y d hd hy
    by_cases hcase : daysInYear y ≤ d
    · have hstep : yearLoop (fuel + 1) y d = yearLoop fuel (y + 1) (d - daysInYear y) := by
        simp [yearLoop, hcase]
      have hge := daysInYear_ge y
      have hrec := ih (y + 1) (d - daysInYear y) (by omega) (by omega)
      rw [hstep]
      have hmid := hrec.2.1
      refine ⟨hrec.1, by omega, hrec.2.2.1, ?_⟩
      have heq := hrec.2.2.2
      have hsucc : daysToYear (y - 1 + 1) = daysToYear (y - 1) + daysInYear (y - 1 + 1) :=
        daysToYear_succ (y - 1)
      have hy1 : y - 1 + 1 = y := by omega
      rw [hy1] at hsucc
      have hy2 : (y + 1) - 1 = y := by omega
      rw [hy2] at heq
      omega
    · have hstep : yearLoop (fuel + 1) y d = (y, d) := by
        simp [yearLoop, hcase]
      rw [hstep]
      refine ⟨hy, Nat.le_refl y, ?_, rfl⟩
      show d < daysInYear y
      omega

theorem monthLoop_spec : ∀ (lens : List Nat) (m d : Nat), d < lens.sum →
    ∃ pre lm post, lens = pre ++ lm :: post ∧
      (monthLoop m lens d).1 = m + pre.length ∧ (monthLoop m lens d).2 < lm ∧
      pre.sum + (monthLoop m lens d).2 = d := by
  intro lens
  induction lens with
  | nil => intro m d hd; simp at hd
  | cons l rest ih =>
    intro m d hd
    by_cases hcase : l ≤ d
    · have hstep : monthLoop m (l :: rest) d = monthLoop (m + 1) rest (d - l) := by
        simp [monthLoop, hcase]
      have hsum : (l :: rest).sum = l + rest.sum := by simp
      obtain ⟨pre, lm, post, h1, h2, h3, h4⟩ := ih (m + 1) (d - l) (by omega)
      refine ⟨l :: pre, lm, post, by simp [h1], ?_, ?_, ?_⟩
      · rw [hstep]; simp [h2]; omega
      · rw [hstep]; exact h3
      · rw [hstep]; simp; omega
    · have hstep : monthLoop m (l :: rest) d = (m, d) := by
        simp [monthLoop, hcase]
      exact ⟨[], l, rest, rfl, by rw [hstep]; simp, by rw [hstep]; omega, by rw [hstep]; simp⟩

theorem monthsOfYear_sum (y : Nat) : (monthsOfYear y).sum = daysInYear y := by
  unfold monthsOfYear daysInYear
  split <;> simp

theorem monthsOfYear_length (y : Nat) : (monthsOfYear y).length = 12 := by
  unfold monthsOfYear; simp

theorem monthsOfYear_le (y : Nat) : ∀ x ∈ monthsOfYear y, x ≤ 31 := by
  unfold monthsOfYear
  intro x hx
  split at hx <;> simp at hx <;> omega

theorem getD_append_len (pre : List Nat) (lm : Nat) (post : List Nat) :
    (pre ++ lm :: post).getD pre.length 0 = lm := by
  induction pre with
  | nil => rfl
  | cons a as ih => simpa using ih

theorem take_append_len (pre : List Nat) (lm : Nat) (post : List Nat) :
    (pre ++ lm :: post).take pre.length = pre := by
  induction pre with
  | nil => rfl
  | cons a as ih => simp [ih]

theorem fieldsOfSeconds_spec (n : Nat) (hn : n ≤ maxSec) :
    validFields (fieldsOfSeconds n) = true ∧ secondsOfFields (fieldsOfSeconds n) = n := by
  have hmaxv : maxSec = 315537897599 := by decide
  have hn2 : n ≤ 315537897599 := hmaxv ▸ hn
  have hspec := yearLoop_spec (n / 86400 + 1) 1 (n / 86400) (by omega) (by omega)
  obtain ⟨hge1, -, hdoy, hsum⟩ := hspec
  have hz : daysToYear (1 - 1) = 0 := by decide
  rw [hz] at hsum
  have hD : daysToYear 9999 = 3652059 := by decide
  have hYle : (yearLoop (n / 86400 + 1) 1 (n / 86400)).1 ≤ 9999 := by
    by_contra hgt
    have hmono : daysToYear 9999 ≤
        daysToYear ((yearLoop (n / 86400 + 1) 1 (n / 86400)).1 - 1) :=
      daysToYear_mono (by omega)
    omega
  have hmsum : (monthsOfYear (yearLoop (n / 86400 + 1) 1 (n / 86400)).1).sum =
      daysInYear (yearLoop (n / 86400 + 1) 1 (n / 86400)).1 := monthsOfYear_sum _
  obtain ⟨pre, lm, post, hsplit, hm1, hlm, hpresum⟩ :=
    monthLoop_spec (monthsOfYear (yearLoop (n / 86400 + 1) 1 (n / 86400)).1) 1
      (yearLoop (n / 86400 + 1) 1 (n / 86400)).2 (by rw [hmsum]; exact hdoy)
  have hlen : pre.length ≤ 11 := by
    have hlens := congrArg List.length hsplit
    rw [monthsOfYear_length] at hlens
    simp at hlens
    omega
  have hmm1 : (monthLoop 1 (monthsOfYear (yearLoop (n / 86400 + 1) 1 (n / 86400)).1)
      (yearLoop (n / 86400 + 1) 1 (n / 86400)).2).1 - 1 = pre.length := by omega
  have hml : monthLen (yearLoop (n / 86400 + 1) 1 (n / 86400)).1
      (monthLoop 1 (monthsOfYear (yearLoop (n / 86400 + 1) 1 (n / 86400)).1)
        (yearLoop (n / 86400 + 1) 1 (n / 86400)).2).1 = lm := by
    unfold monthLen
    rw [hmm1, hsplit, getD_append_len]
  have hdbm : daysBeforeMonth (yearLoop (n / 86400 + 1) 1 (n / 86400)).1
      (monthLoop 1 (monthsOfYear (yearLoop (n / 86400 + 1) 1 (n / 86400)).1)
        (yearLoop (n / 86400 + 1) 1 (n / 86400)).2).1 = pre.sum := by
    unfold daysBeforeMonth
    rw [hmm1, hsplit, take_append_len]
  constructor
  · simp only [fieldsOfSeconds, validFields, Bool.and_eq_true, decide_eq_true_eq]
    rw [hml]
    refine ⟨⟨⟨⟨⟨⟨⟨⟨?_, ?_⟩, ?_⟩, ?_⟩, ?_⟩, ?_⟩, ?_⟩, ?_⟩, ?_⟩ <;> omega
  · simp only [fieldsOfSeconds, secondsOfFields]
    rw [hdbm]
    omega



/-! ## Digit-string lemmas -/

theorem digitVal_digitChar (k : Nat) (h : k ≤ 9) : digitVal (digitChar k) = some k := by
  interval_cases k <;> decide

theorem digitChar_ne_space (k : Nat) (h : k ≤ 9) : digitChar k ≠ ' ' := by
  interval_cases k <;> decide

theorem takeWhile_app (l r : List Char) (h : ∀ c ∈ l, c ≠ ' ') :
    (l ++ r).takeWhile (fun c => c ≠ ' ') = l ++ r.takeWhile (fun c => c ≠ ' ') := by
  induction l with
  | nil => rfl
  | cons c cs ih =>
    have hc : c ≠ ' ' := h c (by simp)
    have hd : decide (c ≠ ' ') = true := by simp [hc]
    simp only [List.cons_append, List.takeWhile_cons, hd, if_true]
    rw [ih (fun x hx => h x (List.mem_cons_of_mem c hx))]

theorem pad2_ne_space (v : Nat) (hv : v ≤ 99) : ∀ c ∈ pad2 v, c ≠ ' ' := by
  intro c hc
  simp only [pad2, List.mem_cons, List.not_mem_nil, or_false] at hc
  rcases hc with h | h <;> rw [h]
  · exact digitChar_ne_space _ (by omega)
  · exact digitChar_ne_space _ (by omega)

theorem natChars_one (fuel n : Nat) (h : n ≤ 9) : natChars fuel n = [digitChar n] := by
  cases fuel with
  | zero =>
    have hmod : n % 10 = n := by omega
    simp [natChars, hmod]
  | succ f =>
    simp only [natChars]
    rw [if_pos (by omega)]

theorem natChars_two (fuel n : Nat) (h1 : 10 ≤ n) (h2 : n ≤ 99) (hf : n ≤ fuel) :
    natChars fuel n = [digitChar (n / 10), digitChar (n % 10)] := by
  cases fuel with
  | zero => omega
  | succ f =>
    simp only [natChars]
    rw [if_neg (by omega), natChars_one f (n / 10) (by omega)]
    rfl

theorem natChars_three (fuel n : Nat) (h1 : 100 ≤ n) (h2 : n ≤ 999) (hf : n ≤ fuel) :
    natChars fuel n = [digitChar (n / 100), digitChar (n / 10 % 10), digitChar (n % 10)] := by
  cases fuel with
  | zero => omega
  | succ f =>
    simp only [natChars]
    rw [if_neg (by omega), natChars_two f (n / 10) (by omega) (by omega) (by omega)]
    have e1 : n / 10 / 10 = n / 100 := by omega
    rw [e1]
    rfl

theorem natChars_four (fuel n : Nat) (h1 : 1000 ≤ n) (h2 : n ≤ 9999) (hf : n ≤ fuel) :
    natChars fuel n =
      [digitChar (n / 1000), digitChar (n / 100 % 10), digitChar (n / 10 % 10),
        digitChar (n % 10)] := by
  cases fuel with
  | zero => omega
  | succ f =>
    simp only [natChars]
    rw [if_neg (by omega), natChars_three f (n / 10) (by omega) (by omega) (by omega)]
    have e1 : n / 10 / 100 = n / 1000 := by omega
    have e2 : n / 10 / 10 = n / 100 := by omega
    rw [e1, e2]
    rfl

theorem natStr_four (y : Nat) (h1 : 1000 ≤ y) (h2 : y ≤ 9999) :
    natStr y =
      [digitChar (y / 1000), digitChar (y / 100 % 10), digitChar (y / 10 % 10),
        digitChar (y % 10)] :=
  natChars_four y y h1 h2 (Nat.le_refl y)

theorem natStr_four_ne_space (y : Nat) (h1 : 1000 ≤ y) (h2 : y ≤ 9999) :
    ∀ c ∈ natStr y, c ≠ ' ' := by
  rw [natStr_four y h1 h2]
  intro c hc
  simp only [List.mem_cons, List.not_mem_nil, or_false] at hc
  rcases hc with h | h | h | h <;> rw [h] <;> exact digitChar_ne_space _ (by omega)

/-! ## Head-candidate lemmas for the strptime field regexes -/

theorem twoDigitCand_pad2 (cond : Nat → Nat → Bool) (v : Nat) (hv : v ≤ 99)
    (hcond : cond (v / 10) (v % 10) = true) (rest : List Char) :
    twoDigitCand cond (pad2 v ++ rest) = [(v, rest)] := by
  have ha := digitVal_digitChar (v / 10) (by omega)
  have hb := digitVal_digitChar (v % 10) (by omega)
  have hval : 10 * (v / 10) + v % 10 = v := by omega
  simp only [pad2, List.cons_append, List.nil_append, twoDigitCand, ha, hb, hcond, if_true,
    hval]

theorem tryCands_cons {α : Type} (k : Nat → List Char → Option α) (v : Nat) (r : List Char)
    (t : List (Nat × List Char)) (x : α) (h : k v r = some x) :
    tryCands k ((v, r) :: t) = some x := by
  simp [tryCands, h]

theorem mCands_head (v : Nat) (rest : List Char) (h1 : 1 ≤ v) (h2 : v ≤ 12) :
    ∃ t, mCands (pad2 v ++ rest) = (v, rest) :: t := by
  refine ⟨oneDigitCand (fun a => 1 ≤ a) (pad2 v ++ rest), ?_⟩
  unfold mCands
  rw [twoDigitCand_pad2 _ v (by omega) ?_ rest]
  · rfl
  · simp only [Bool.or_eq_true, Bool.and_eq_true, beq_iff_eq, decide_eq_true_eq]
    omega

theorem dCands_head (v : Nat) (rest : List Char) (h1 : 1 ≤ v) (h2 : v ≤ 31) :
    ∃ t, dCands (pad2 v ++ rest) = (v, rest) :: t := by
  refine ⟨oneDigitCand (fun a => 1 ≤ a) (pad2 v ++ rest), ?_⟩
  unfold dCands
  rw [twoDigitCand_pad2 _ v (by omega) ?_ rest]
  · rfl
  · simp only [Bool.or_eq_true, Bool.and_eq_true, beq_iff_eq, decide_eq_true_eq]
    omega

theorem hCands_head (v : Nat) (rest : List Char) (h2 : v ≤ 23) :
    ∃ t, hCands (pad2 v ++ rest) = (v, rest) :: t := by
  refine ⟨oneDigitCand (fun _ => true) (pad2 v ++ rest), ?_⟩
  unfold hCands
  rw [twoDigitCand_pad2 _ v (by omega) ?_ rest]
  · rfl
  · simp only [Bool.or_eq_true, Bool.and_eq_true, beq_iff_eq, decide_eq_true_eq]
    omega

theorem miCands_head (v : Nat) (rest : List Char) (h2 : v ≤ 59) :
    ∃ t, miCands (pad2 v ++ rest) = (v, rest) :: t := by
  refine ⟨oneDigitCand (fun _ => true) (pad2 v ++ rest), ?_⟩
  unfold miCands
  rw [twoDigitCand_pad2 _ v (by omega) ?_ rest]
  · rfl
  · simp only [decide_eq_true_eq]
    omega

theorem sCands_head (v : Nat) (rest : List Char) (h2 : v ≤ 59) :
    ∃ t, sCands (pad2 v ++ rest) = (v, rest) :: t := by
  refine ⟨oneDigitCand (fun _ => true) (pad2 v ++ rest), ?_⟩
  unfold sCands
  rw [twoDigitCand_pad2 _ v (by omega) ?_ rest]
  · rfl
  · simp only [Bool.or_eq_true, Bool.and_eq_true, beq_iff_eq, decide_eq_true_eq]
    omega

theorem getD_le_31 : ∀ (l : List Nat), (∀ x ∈ l, x ≤ 31) → ∀ i, l.getD i 0 ≤ 31 := by
  intro l h i
  induction l generalizing i with
  | nil => simp [List.getD]
  | cons a as ih =>
    cases i with
    | zero => simpa using h a (by simp)
    | succ j => simpa using ih (fun x hx => h x (by simp [hx])) j

theorem monthLen_le_31 (y m : Nat) : monthLen y m ≤ 31 := by
  unfold monthLen
  exact getD_le_31 _ (monthsOfYear_le y) _

theorem runMatch_format (fy fm fd fh fmi fs : Nat)
    (hy1 : 1000 ≤ fy) (hy2 : fy ≤ 9999) (hm1 : 1 ≤ fm) (hm2 : fm ≤ 12)
    (hd1 : 1 ≤ fd) (hd2 : fd ≤ 31) (hh : fh ≤ 23) (hmi2 : fmi ≤ 59) (hs : fs ≤ 59) :
    runMatch (natStr fy ++ (pad2 fm ++ (pad2 fd ++ (pad2 fh ++ (pad2 fmi ++ (pad2 fs ++ [])))))) =
      some (⟨fy, fm, fd, fh, fmi, fs⟩, []) := by
  have ha1 := digitVal_digitChar (fy / 1000) (by omega)
  have ha2 := digitVal_digitChar (fy / 100 % 10) (by omega)
  have ha3 := digitVal_digitChar (fy / 10 % 10) (by omega)
  have ha4 := digitVal_digitChar (fy % 10) (by omega)
  have hYval : ((fy / 1000 * 10 + fy / 100 % 10) * 10 + fy / 10 % 10) * 10 + fy % 10 = fy := by
    omega
  rw [natStr_four fy hy1 hy2]
  simp only [List.cons_append, List.nil_append]
  unfold runMatch
  simp only [matchY, ha1, ha2, ha3, ha4, hYval]
  obtain ⟨t1, ht1⟩ := mCands_head fm (pad2 fd ++ (pad2 fh ++ (pad2 fmi ++ (pad2 fs ++ [])))) hm1 hm2
  rw [ht1]
  apply tryCands_cons
  dsimp only
  obtain ⟨t2, ht2⟩ := dCands_head fd (pad2 fh ++ (pad2 fmi ++ (pad2 fs ++ []))) hd1 hd2
  rw [ht2]
  apply tryCands_cons
  dsimp only
  obtain ⟨t3, ht3⟩ := hCands_head fh (pad2 fmi ++ (pad2 fs ++ [])) hh
  rw [ht3]
  apply tryCands_cons
  dsimp only
  obtain ⟨t4, ht4⟩ := miCands_head fmi (pad2 fs ++ []) hmi2
  rw [ht4]
  apply tryCands_cons
  dsimp only
  obtain ⟨t5, ht5⟩ := sCands_head fs [] hs
  rw [ht5]
  apply tryCands_cons
  rfl

theorem parse_datetime_eq (s : String) :
    parse_datetime s =
      match runMatch (s.data.takeWhile (fun c => c ≠ ' ')) with
      | none => none
      | some (f, rest) =>
        if rest = [] ∧ validFields f then some (secondsOfFields f) else none := rfl

theorem parse_format (n : Nat) (hn : n ≤ maxSec) (hy : 1000 ≤ (fieldsOfSeconds n).y) :
    parse_datetime (format_datetime n) = some n := by
  obtain ⟨hvalid, hsec⟩ := fieldsOfSeconds_spec n hn
  have hvalid2 := hvalid
  simp only [validFields, Bool.and_eq_true, decide_eq_true_eq] at hvalid2
  obtain ⟨⟨⟨⟨⟨⟨⟨⟨hb1, hb2⟩, hb3⟩, hb4⟩, hb5⟩, hb6⟩, hb7⟩, hb8⟩, hb9⟩ := hvalid2
  have hd31 : (fieldsOfSeconds n).d ≤ 31 := le_trans hb6 (monthLen_le_31 _ _)
  have hdata : (format_datetime n).data =
      natStr (fieldsOfSeconds n).y ++ pad2 (fieldsOfSeconds n).m ++ pad2 (fieldsOfSeconds n).d ++
        pad2 (fieldsOfSeconds n).h ++ pad2 (fieldsOfSeconds n).mi ++ pad2 (fieldsOfSeconds n).s ++
        [' ', '+', '0', '0', '0', '0'] := rfl
  rw [parse_datetime_eq, hdata]
  simp only [List.append_assoc]
  rw [takeWhile_app _ _ (natStr_four_ne_space _ hy hb2)]
  rw [takeWhile_app _ _ (pad2_ne_space _ (by omega))]
  rw [takeWhile_app _ _ (pad2_ne_space _ (by omega))]
  rw [takeWhile_app _ _ (pad2_ne_space _ (by omega))]
  rw [takeWhile_app _ _ (pad2_ne_space _ (by omega))]
  rw [takeWhile_app _ _ (pad2_ne_space _ (by omega))]
  have hsp : ([' ', '+', '0', '0', '0', '0'] : List Char).takeWhile (fun c => c ≠ ' ') = [] := rfl
  rw [hsp]
  rw [runMatch_format (fieldsOfSeconds n).y (fieldsOfSeconds n).m (fieldsOfSeconds n).d
    (fieldsOfSeconds n).h (fieldsOfSeconds n).mi (fieldsOfSeconds n).s hy hb2 hb3 hb4 hb5 hd31
    hb7 hb8 hb9]
  dsimp only
  rw [if_pos ⟨rfl, hvalid⟩]
  show some (secondsOfFields (fieldsOfSeconds n)) = some n
  rw [hsec]

/-- Claim C2 (amended): for every timestamp `t` that parses (`parse_datetime t
= some n`) and every integer offset `o` such that the shifted value `n + o`
is representable as a `datetime` and its year is at least 1000, formatting
the shifted value with `format_datetime` and parsing the result again yields
exactly the shifted value.  (The year restriction is forced by
`c2_counterexample`: glibc `strftime` does not zero-pad `%Y`, so shifted
values with year below 1000 format to fewer than 14 digits and fail to
re-parse.) -/
theorem c2_roundtrip (t : String) (o : Int) (n : Nat)
    (_hp : parse_datetime t = some n)
    (_h0 : 0 ≤ (n : Int) + o) (h1 : (n : Int) + o ≤ (maxSec : Int))
    (hy : 1000 ≤ (fieldsOfSeconds ((n : Int) + o).toNat).y) :
    parse_datetime (format_datetime ((n : Int) + o).toNat) = some ((n : Int) + o).toNat := by
  apply parse_format
  · have hm : maxSec = 315537897599 := by decide
    omega
  · exact hy

set_option maxRecDepth 40000 in
/-- Witness for C2: `"20240101000000"` parses to 63839664000 and shifting by
3600 seconds round-trips through the textual form. -/
theorem c2_roundtrip_witness :
    parse_datetime "20240101000000" = some 63839664000 ∧
    0 ≤ (63839664000 : Int) + 3600 ∧ (63839664000 : Int) + 3600 ≤ (maxSec : Int) ∧
    1000 ≤ (fieldsOfSeconds ((63839664000 : Int) + 3600).toNat).y ∧
    parse_datetime (format_datetime ((63839664000 : Int) + 3600).toNat) =
      some ((63839664000 : Int) + 3600).toNat :=
  ⟨by decide, by decide, by decide, by decide,
    c2_roundtrip "20240101000000" 3600 63839664000 (by decide) (by decide) (by decide)
      (by decide)⟩

set_option maxRecDepth 40000 in
/-- Counterexample to C2 as stated: the valid 14-digit timestamp
`"00990101000000"` (year 99) parses, but formatting the (unshifted, offset 0)
value yields `"990101000000 +0000"`, only 12 digits, which fails to re-parse:
the round-trip produces `none` instead of the shifted value. -/
theorem c2_counterexample :
    parse_datetime "00990101000000" = some 3092601600 ∧
    format_datetime ((3092601600 : Int) + 0).toNat = "990101000000 +0000" ∧
    parse_datetime (format_datetime ((3092601600 : Int) + 0).toNat) = none :=
  ⟨by decide, by decide, by decide⟩

/-! ## Attribute-dictionary and frame lemmas for the bulk adjuster -/

theorem attrGet_attrSet_ne (a : List (String × String)) (k v k2 : String) (h : k2 ≠ k) :
    attrGet (attrSet a k v) k2 = attrGet a k2 := by
  induction a with
  | nil =>
    have h2 : k ≠ k2 := Ne.symm h
    simp [attrSet, attrGet, h2]
  | cons p rest ih =>
    obtain ⟨pk, pv⟩ := p
    by_cases hpk : pk = k
    · subst hpk
      have e1 : attrSet ((pk, pv) :: rest) pk v = (pk, v) :: rest := by
        simp [attrSet]
      rw [e1]
      have hq : pk ≠ k2 := Ne.symm h
      simp [attrGet, hq]
    · have e1 : attrSet ((pk, pv) :: rest) k v = (pk, pv) :: attrSet rest k v := by
        simp [attrSet, hpk]
      rw [e1]
      by_cases hq : pk = k2
      · simp [attrGet, hq]
      · simp [attrGet, hq, ih]

theorem setTimeAttr_get_ne (key : String) (off : Int) (a : List (String × String)) (k : String)
    (h : k ≠ key) : attrGet (setTimeAttr key off a) k = attrGet a k := by
  unfold setTimeAttr
  cases hst : attrGet a key with
  | none => rfl
  | some st =>
    dsimp only
    by_cases h1 : (st != "") = true
    · rw [if_pos h1]
      cases hadj : adjust_time st off with
      | none => rfl
      | some ns =>
        dsimp only
        by_cases h2 : (ns != "") = true
        · rw [if_pos h2]
          exact attrGet_attrSet_ne a key ns k h
        · rw [if_neg h2]
    · rw [if_neg h1]

theorem processBody_get_ne (cfg : OffsetConfig) (a : List (String × String)) (k : String)
    (h1 : k ≠ "start") (h2 : k ≠ "stop") :
    attrGet (processBody cfg a) k = attrGet a k := by
  unfold processBody
  cases hch : attrGet a "channel" with
  | none => rfl
  | some c =>
    dsimp only
    by_cases hc : (c != "") = true
    · rw [if_pos hc]
      unfold adjustStartStop
      rw [setTimeAttr_get_ne _ _ _ _ h2, setTimeAttr_get_ne _ _ _ _ h1]
    · rw [if_neg hc]

mutual
theorem adjustE_frame (cfg : OffsetConfig) (scope : Option String) (e : Element) :
    FrameOK scope e (adjustE cfg scope e) := by
  match e with
  | .elem t a tx tl ch =>
    unfold adjustE
    simp only [FrameOK]
    refine ⟨by trivial, by trivial, by trivial, ?_, ?_, ?_⟩
    · intro k h1 h2
      by_cases hsel : selects scope t a = true
      · rw [if_pos hsel]
        exact processBody_get_ne cfg a k h1 h2
      · rw [if_neg hsel]
    · intro hsel
      rw [if_neg ?_]
      rw [hsel]
      exact Bool.false_ne_true
    · exact adjustEL_frame cfg scope ch
theorem adjustEL_frame (cfg : OffsetConfig) (scope : Option String) (es : ElementList) :
    FrameOKL scope es (adjustEL cfg scope es) := by
  match es with
  | .nil =>
    unfold adjustEL
    simp only [FrameOKL]
  | .cons e es2 =>
    unfold adjustEL
    simp only [FrameOKL]
    exact ⟨adjustE_frame cfg scope e, adjustEL_frame cfg scope es2⟩
end

/-- Claim C1: for every offset configuration, scope and parsed document, the
bulk adjustment `adjust_times` rewrites at most the `start` and `stop`
attribute values of the programme elements selected by the scope: tags,
texts, tails, the tree shape, every other attribute lookup, and the whole
attribute list of every unselected element are left unchanged. -/
theorem c1_frame (cfg : OffsetConfig) (scope : Option String) (root : Element) :
    FrameOK scope root (adjust_times cfg scope root).1 := by
  match root with
  | .elem t a tx tl ch =>
    unfold adjust_times
    dsimp only
    simp only [FrameOK]
    exact ⟨trivial, trivial, trivial, fun k h1 h2 => trivial, fun hsel => trivial,
      adjustEL_frame cfg scope ch⟩

/-- Witness for C1 at a concrete configuration, scope and document. -/
theorem c1_frame_witness :
    FrameOK (some "A") rootMixed (adjust_times cfgFix (some "A") rootMixed).1 :=
  c1_frame cfgFix (some "A") rootMixed

/-! ## Counting lemmas -/

theorem selects_count_cond (id : String) (hid : id ≠ "") (t : Option String)
    (a : List (String × String)) :
    (selects (some id) t a && optTruthy (attrGet a "channel")) =
      (t == some "programme" && attrGet a "channel" == some id) := by
  have hfalse : (id == "") = false := by
    simp [hid]
  cases hch : attrGet a "channel" with
  | none => simp [selects, optTruthy, hfalse, hch]
  | some c =>
    by_cases hc : c = id
    · subst hc
      simp [selects, optTruthy, hfalse, hch]
      intro _
      exact hid
    · simp [selects, optTruthy, hfalse, hch, hc]

mutual
theorem countE_eq_countProg (id : String) (hid : id ≠ "") (e : Element) :
    countE (some id) e = countProg id e := by
  match e with
  | .elem t a tx tl ch =>
    unfold countE countProg
    rw [countEL_eq_countProgL id hid ch, selects_count_cond id hid t a]
theorem countEL_eq_countProgL (id : String) (hid : id ≠ "") (es : ElementList) :
    countEL (some id) es = countProgL id es := by
  match es with
  | .nil => rfl
  | .cons e es2 =>
    unfold countEL countProgL
    rw [countE_eq_countProg id hid e, countEL_eq_countProgL id hid es2]
end

/-- Claim C5: after a channel-specific run of `adjust_times` on a fresh
adjuster, the `processed_programmes` statistic equals the exact number of
`programme` elements of the document whose `channel` attribute equals the
requested (non-empty) channel id; `process_single_channel` reports exactly
that number as its `processed_programmes` statistic. -/
theorem c5_count (cfg : OffsetConfig) (id : String) (root : Element) (hid : id ≠ "") :
    (adjust_times cfg (some id) root).2.1 = countMatching id root ∧
    (∀ tr k, process_single_channel cfg id root = some (tr, k) → k = countMatching id root) := by
  constructor
  · match root with
    | .elem t a tx tl ch =>
      unfold adjust_times countMatching
      dsimp only
      exact countEL_eq_countProgL id hid ch
  · intro tr k hps
    match root with
    | .elem t a tx tl ch =>
      unfold process_single_channel at hps
      dsimp only at hps
      by_cases hz : countProgL id ch = 0
      · rw [if_pos hz] at hps
        exact absurd hps (by simp)
      · rw [if_neg hz] at hps
        unfold countMatching
        have := (Option.some.injEq _ _).mp hps
        have hk := congrArg Prod.snd this
        exact hk.symm

/-- Witness for C5: in `rootMixed` exactly two programmes belong to channel
`A`, and the adjustment statistics report exactly 2. -/
theorem c5_count_witness :
    (adjust_times cfgFix (some "A") rootMixed).2.1 = countMatching "A" rootMixed ∧
    countMatching "A" rootMixed = 2 :=
  ⟨(c5_count cfgFix "A" rootMixed (by decide)).1, by decide⟩

/-- Claim C10: in an all-channels run, a `programme` element whose `channel`
attribute is absent or empty is skipped entirely by the `adjust_times` loop:
its attributes (including `start`/`stop`) are not modified, it is not counted
in `processed_programmes`, and it contributes nothing to the
`processed_channels` set (its children are still visited, being separate
`findall` matches). -/
theorem c10_skip (cfg : OffsetConfig) (e : Element)
    (ht : e.tag = some "programme")
    (hch : optTruthy (attrGet e.attrs "channel") = false) :
    (adjustE cfg none e).attrs = e.attrs ∧
    countE none e = countEL none e.children ∧
    chansE none e = chansEL none e.children := by
  match e with
  | .elem t a tx tl ch =>
    have ht2 : t = some "programme" := ht
    subst ht2
    have hch2 : optTruthy (attrGet a "channel") = false := hch
    have hsel : selects none (some "programme") a = true := by
      simp [selects]
    have hbody : processBody cfg a = a := by
      unfold processBody
      cases hg : attrGet a "channel" with
      | none => rfl
      | some c =>
        dsimp only
        rw [hg] at hch2
        have hcf : (c != "") = false := by
          simpa [optTruthy] using hch2
        rw [if_neg ?_]
        simp [hcf]
    refine ⟨?_, ?_, ?_⟩
    · unfold adjustE
      dsimp only [Element.attrs]
      rw [if_pos hsel, hbody]
    · unfold countE
      dsimp only [Element.children]
      rw [hch2]
      simp
    · unfold chansE
      dsimp only [Element.children]
      rw [hch2]
      simp

/-- Witness for C10: a programme carrying a `start` time but no `channel`
attribute is left untouched and uncounted by the all-channels run. -/
theorem c10_skip_witness :
    (adjustE cfgFix none progNoChannel).attrs = progNoChannel.attrs ∧
    countE none progNoChannel = countEL none progNoChannel.children ∧
    chansE none progNoChannel = chansEL none progNoChannel.children :=
  c10_skip cfgFix progNoChannel (by decide) (by decide)

/-- A `start`/`stop` block leaves the attribute dictionary untouched when the
attribute's value fails to parse (the `_adjust_time` call returns `None`, or
the value is the falsy empty string and the block is skipped outright). -/
theorem setTimeAttr_unparseable (key : String) (off : Int) (a : List (String × String))
    (v : String) (hv : attrGet a key = some v) (hparse : parse_datetime v = none) :
    setTimeAttr key off a = a := by
  unfold setTimeAttr
  rw [hv]
  dsimp only
  by_cases hvb : (v != "") = true
  · rw [if_pos hvb]
    have hadj : adjust_time v off = none := by
      unfold adjust_time
      rw [hparse]
    rw [hadj]
  · rw [if_neg hvb]

/-- Claim C6: a selected programme entry with a truthy `channel` attribute is
still counted as processed whatever the state of its `start`/`stop` fields:
a `start` value that fails to parse (such as `"notadate"`) is left untouched,
a `stop` value that fails to parse is likewise left untouched, the run
continues, and an entry missing both `start` and `stop` keeps its attributes
unchanged yet still increments `processed_programmes` by one.  (No modelled
operation can raise, so the run never aborts.) -/
theorem c6_malformed (cfg : OffsetConfig) (scope : Option String) (t : Option String)
    (a : List (String × String)) (tx tl : String) (ch : ElementList) (c : String)
    (hsel : selects scope t a = true)
    (hc : attrGet a "channel" = some c) (hc2 : c ≠ "") :
    (∀ v, attrGet a "start" = some v → parse_datetime v = none →
      attrGet (adjustE cfg scope (.elem t a tx tl ch)).attrs "start" = some v) ∧
    (∀ v, attrGet a "stop" = some v → parse_datetime v = none →
      attrGet (adjustE cfg scope (.elem t a tx tl ch)).attrs "stop" = some v) ∧
    countE scope (.elem t a tx tl ch) = 1 + countEL scope ch ∧
    (attrGet a "start" = none → attrGet a "stop" = none →
      (adjustE cfg scope (.elem t a tx tl ch)).attrs = a) := by
  have htru : optTruthy (attrGet a "channel") = true := by
    rw [hc]
    unfold optTruthy
    simp [hc2]
  have hbody : processBody cfg a = adjustStartStop (effectiveOffset cfg c) a := by
    unfold processBody
    rw [hc]
    dsimp only
    rw [if_pos ?_]
    simp [hc2]
  have hattrs : (adjustE cfg scope (.elem t a tx tl ch)).attrs =
      adjustStartStop (effectiveOffset cfg c) a := by
    unfold adjustE
    dsimp only [Element.attrs]
    rw [if_pos hsel, hbody]
  refine ⟨?_, ?_, ?_, ?_⟩
  · intro v hv hparse
    rw [hattrs]
    unfold adjustStartStop
    rw [setTimeAttr_unparseable "start" _ _ v hv hparse]
    rw [setTimeAttr_get_ne _ _ _ _ (by decide)]
    exact hv
  · intro v hv hparse
    rw [hattrs]
    unfold adjustStartStop
    have hv1 : attrGet (setTimeAttr "start" (effectiveOffset cfg c) a) "stop" = some v := by
      rw [setTimeAttr_get_ne _ _ _ _ (by decide)]
      exact hv
    rw [setTimeAttr_unparseable "stop" _ _ v hv1 hparse]
    exact hv1
  · unfold countE
    rw [hsel, htru]
    simp
  · intro hst hsp
    have hstart : setTimeAttr "start" (effectiveOffset cfg c) a = a := by
      unfold setTimeAttr
      rw [hst]
    have hstop : setTimeAttr "stop" (effectiveOffset cfg c) a = a := by
      unfold setTimeAttr
      rw [hsp]
    rw [hattrs]
    unfold adjustStartStop
    rw [hstart, hstop]

/-- Witness for C6: the fixture programme with `start = "notadate"` and
`stop = "alsonotadate"` keeps both values and is still counted. -/
theorem c6_malformed_witness :
    attrGet (adjustE cfgFix none progBadBoth).attrs "start" = some "notadate" ∧
    attrGet (adjustE cfgFix none progBadBoth).attrs "stop" = some "alsonotadate" ∧
    countE none progBadBoth = 1 + countEL none (.nil) :=
  ⟨((c6_malformed cfgFix none (some "programme")
      [("channel", "A"), ("start", "notadate"), ("stop", "alsonotadate")] "" "" .nil "A"
      (by decide) (by decide) (by decide)).1) "notadate" (by decide) (by decide),
    ((c6_malformed cfgFix none (some "programme")
      [("channel", "A"), ("start", "notadate"), ("stop", "alsonotadate")] "" "" .nil "A"
      (by decide) (by decide) (by decide)).2.1) "alsonotadate" (by decide) (by decide),
    (c6_malformed cfgFix none (some "programme")
      [("channel", "A"), ("start", "notadate"), ("stop", "alsonotadate")] "" "" .nil "A"
      (by decide) (by decide) (by decide)).2.2.1⟩

/-! ## Subtrees without programme elements are untouched by the bulk adjuster -/

mutual
theorem adjustE_noProg (cfg : OffsetConfig) (scope : Option String) (e : Element)
    (h : hasProg e = false) :
    adjustE cfg scope e = e ∧ countE scope e = 0 ∧ chansE scope e = ∅ := by
  match e with
  | .elem t a tx tl ch =>
    have hsplit : (t == some "programme") = false ∧ hasProgL ch = false := by
      simpa [hasProg] using h
    have hsel : selects scope t a = false := by
      unfold selects
      rw [hsplit.1]
      simp
    obtain ⟨hL1, hL2, hL3⟩ := adjustEL_noProg cfg scope ch hsplit.2
    refine ⟨?_, ?_, ?_⟩
    · unfold adjustE
      rw [hL1, if_neg (by simp [hsel])]
    · unfold countE
      rw [hL2]
      simp [hsel]
    · unfold chansE
      rw [hL3]
      simp [hsel]
theorem adjustEL_noProg (cfg : OffsetConfig) (scope : Option String) (es : ElementList)
    (h : hasProgL es = false) :
    adjustEL cfg scope es = es ∧ countEL scope es = 0 ∧ chansEL scope es = ∅ := by
  match es with
  | .nil => exact ⟨rfl, rfl, rfl⟩
  | .cons e es2 =>
    have hsplit : hasProg e = false ∧ hasProgL es2 = false := by
      simpa [hasProgL] using h
    obtain ⟨h1, h2, h3⟩ := adjustE_noProg cfg scope e hsplit.1
    obtain ⟨g1, g2, g3⟩ := adjustEL_noProg cfg scope es2 hsplit.2
    refine ⟨?_, ?_, ?_⟩
    · unfold adjustEL
      rw [h1, g1]
    · unfold countEL
      rw [h2, g2]
    · unfold chansEL
      rw [h3, g3]
      simp
end

set_option maxRecDepth 40000 in
/-- Counterexample to C7 as stated: for a programme entry without a `channel`
attribute, the legacy `adjust_program_times` shifts its `start` and counts it
as processed, while the bulk `adjust_times` path (with the same offset as
default) skips it entirely: the final attributes and the statistics
increments differ. -/
theorem c7_counterexample :
    attrGet (adjust_program_times 3600 progNoChannel).1.attrs "start" =
      some "20240101010000 +0000" ∧
    (adjust_program_times 3600 progNoChannel).2 = 1 ∧
    (firstChild (adjust_times cfgHour none rootNoChannel).1).map Element.attrs =
      some [("start", "20240101000000")] ∧
    (adjust_times cfgHour none rootNoChannel).2.1 = 0 :=
  ⟨by decide, by decide, by decide, by decide⟩

/-- Claim C7 (amended): for a programme entry whose `channel` attribute is
present and non-empty, whose effective offset resolves to `off`, and which
contains no nested programme elements, running the entry through the bulk
path `adjust_times` (all-channels scope, entry as the only child of the root)
yields exactly the element produced by the legacy `adjust_program_times off`
and the same `processed_programmes` increment; the bulk path additionally
records the channel id in `processed_channels`, which the legacy path never
touches, and (per `c7_counterexample`) entries with a falsy `channel` are
skipped by the bulk path but still adjusted and counted by the legacy one. -/
theorem c7_amended (cfg : OffsetConfig) (a : List (String × String)) (tx tl : String)
    (ch : ElementList) (c : String) (off : Int)
    (hc : attrGet a "channel" = some c) (hc2 : c ≠ "")
    (hoff : effectiveOffset cfg c = off)
    (hnp : hasProgL ch = false) :
    adjust_times cfg none
        (.elem (some "tv") [] "" "" (.cons (.elem (some "programme") a tx tl ch) .nil)) =
      (.elem (some "tv") [] "" ""
          (.cons (adjust_program_times off (.elem (some "programme") a tx tl ch)).1 .nil),
        (adjust_program_times off (.elem (some "programme") a tx tl ch)).2, {c}) := by
  have htru : optTruthy (attrGet a "channel") = true := by
    rw [hc]
    unfold optTruthy
    simp [hc2]
  have hsel : selects none (some "programme") a = true := by
    simp [selects]
  have hbody : processBody cfg a = adjustStartStop off a := by
    unfold processBody
    rw [hc]
    dsimp only
    rw [if_pos (by simp [hc2]), hoff]
  obtain ⟨hL1, hL2, hL3⟩ := adjustEL_noProg cfg none ch hnp
  have he : adjustE cfg none (.elem (some "programme") a tx tl ch) =
      (adjust_program_times off (.elem (some "programme") a tx tl ch)).1 := by
    unfold adjustE adjust_program_times
    rw [hL1, if_pos hsel, hbody]
  have hcnt : countE none (.elem (some "programme") a tx tl ch) = 1 := by
    unfold countE
    rw [hL2, hsel, htru]
    simp
  have hchn : chansE none (.elem (some "programme") a tx tl ch) = {c} := by
    unfold chansE
    rw [hL3, hsel, htru, hc]
    simp
  unfold adjust_times
  dsimp only
  unfold adjustEL countEL chansEL adjustEL countEL chansEL
  rw [he, hcnt, hchn]
  unfold adjust_program_times
  dsimp only
  simp

/-- Witness for C7 (amended) at a concrete entry of channel `A`. -/
theorem c7_amended_witness :
    adjust_times cfgHour none rootA =
      (.elem (some "tv") [] "" "" (.cons (adjust_program_times 3600 progA).1 .nil),
        (adjust_program_times 3600 progA).2, ({"A"} : Finset String)) :=
  c7_amended cfgHour [("channel", "A")] "" "" .nil "A" 3600 (by decide) (by decide)
    (by decide) (by decide)

/-- Counterexample to C8 as stated: a single-channel run through
`process_single_channel` writes the adjusted tree directly; the first child
of the written document is still the programme element, not a comment node
(the modelled comment tag is `none`). -/
theorem c8_counterexample :
    (process_single_channel cfgFix "A" rootA).map (fun p => (firstChild p.1).map Element.tag) =
      some (some (some "programme")) := by
  decide

/-- Claim C8 (amended): the all-channels run `process_xml` inserts an
explanatory comment node, carrying the run timestamp and the
processed-programme count, as the first child of the document root before
serialization; the single-channel run `process_single_channel` serializes
the adjusted tree without inserting any comment (per `c8_counterexample`). -/
theorem c8_amended (cfg : OffsetConfig) (now : String) (root : Element) :
    firstChild (process_xml cfg now root).1 =
      some (.elem none [] (commentText now (adjust_times cfg none root).2.1) "" .nil) ∧
    (∀ id root2 out, process_single_channel cfg id root2 = some out →
      out.1 = (adjust_times cfg (some id) root2).1) := by
  constructor
  · match root with
    | .elem t a tx tl ch => rfl
  · intro id root2 out hps
    match root2 with
    | .elem t a tx tl ch =>
      unfold process_single_channel at hps
      dsimp only at hps
      by_cases hz : countProgL id ch = 0
      · rw [if_pos hz] at hps
        exact absurd hps (by simp)
      · rw [if_neg hz] at hps
        have hpair := (Option.some.injEq _ _).mp hps
        exact (congrArg Prod.fst hpair).symm

/-- Witness for C8 (amended): a concrete all-channels run carries the comment
with its timestamp string and count as first child. -/
theorem c8_amended_witness :
    firstChild (process_xml cfgFix "2024-01-01T00:00:00" rootA).1 =
      some (.elem none []
        (commentText "2024-01-01T00:00:00" (adjust_times cfgFix none rootA).2.1) "" .nil) :=
  (c8_amended cfgFix "2024-01-01T00:00:00" rootA).1

/-- Claim C9: the effective offset of a channel is the per-channel `offset`
value when the channel has a configuration entry carrying one, and the
configured default otherwise (entry missing, or entry present without an
`offset` key); nothing besides this exact-id lookup influences the result. -/
theorem c9_offset (cfg : OffsetConfig) (id : String) :
    (∀ cc o, chanLookup cfg id = some cc → cc.offsetVal = some o →
      effectiveOffset cfg id = o) ∧
    (∀ cc, chanLookup cfg id = some cc → cc.offsetVal = none →
      effectiveOffset cfg id = cfg.defaultOffset) ∧
    (chanLookup cfg id = none → effectiveOffset cfg id = cfg.defaultOffset) := by
  refine ⟨?_, ?_, ?_⟩
  · intro cc o h1 h2
    unfold effectiveOffset
    rw [h1]
    dsimp only
    rw [h2]
  · intro cc h1 h2
    unfold effectiveOffset
    rw [h1]
    dsimp only
    rw [h2]
  · intro h1
    unfold effectiveOffset
    rw [h1]

/-- Witness for C9 on the fixture configuration: channel `A` has offset 42,
channel `B` has an entry without an `offset` key, channel `C` has no entry;
the default 30 applies to the latter two. -/
theorem c9_offset_witness :
    effectiveOffset cfgFix "A" = 42 ∧ effectiveOffset cfgFix "B" = 30 ∧
    effectiveOffset cfgFix "C" = 30 :=
  ⟨(c9_offset cfgFix "A").1 ⟨some 42⟩ 42 (by decide) rfl,
    (c9_offset cfgFix "B").2.1 ⟨none⟩ (by decide) rfl,
    (c9_offset cfgFix "C").2.2 (by decide)⟩

/-! ## List.find? characterization -/

theorem find?_some_split {α : Type} (p : α → Bool) (l : List α) (a : α)
    (h : l.find? p = some a) :
    p a = true ∧ ∃ pre post, l = pre ++ a :: post ∧ ∀ x ∈ pre, p x = false := by
  induction l with
  | nil => simp [List.find?] at h
  | cons b rest ih =>
    cases hpb : p b with
    | true =>
      rw [List.find?_cons, hpb] at h
      have hba : b = a := by simpa using h
      subst hba
      exact ⟨hpb, [], rest, rfl, by simp⟩
    | false =>
      rw [List.find?_cons, hpb] at h
      dsimp only at h
      obtain ⟨hp, pre, post, heq, hpre⟩ := ih h
      refine ⟨hp, b :: pre, post, by simp [heq], ?_⟩
      intro x hx
      rcases List.mem_cons.mp hx with hxb | hxp
      · rw [hxb]
        exact hpb
      · exact hpre x hxp

theorem find?_none_all {α : Type} (p : α → Bool) (l : List α)
    (h : l.find? p = none) : ∀ x ∈ l, p x = false := by
  intro x hx
  have := List.find?_eq_none.mp h x hx
  simpa using this

/-- Claim C3: `find_channel` implements a four-tier search evaluated strictly
in order (case-insensitive exact id, exact name, id substring, name
substring): whenever it returns an entry, that entry satisfies some tier
`i < 4`, no catalog entry satisfies any earlier tier, and no earlier catalog
entry satisfies tier `i` (first hit in catalog order); when it returns
nothing, no entry satisfies any tier.  In particular a tier-0 exact id match
wins over a later-tier match on another entry, as in the concrete catalog of
the last conjunct, where the first entry's name contains the searched id. -/
theorem c3_resolution (term : String) (chans : List Channel) :
    (∀ c, find_channel term chans = some c →
      ∃ i, i < 4 ∧ tier i (lowerData term) c = true ∧
        (∀ j, j < i → ∀ x ∈ chans, tier j (lowerData term) x = false) ∧
        ∃ pre post, chans = pre ++ c :: post ∧
          ∀ x ∈ pre, tier i (lowerData term) x = false) ∧
    (find_channel term chans = none →
      ∀ i, i < 4 → ∀ x ∈ chans, tier i (lowerData term) x = false) ∧
    find_channel "RTP1" [⟨"AAA", "xxRTP1xx"⟩, ⟨"RTP1", "RTP 1"⟩] = some ⟨"RTP1", "RTP 1"⟩ := by
  refine ⟨?_, ?_, by decide⟩
  · intro c hc
    simp only [find_channel] at hc
    cases h1 : chans.find? (fun x => lowerData x.id == lowerData term) with
    | some c1 =>
      rw [h1] at hc
      dsimp only at hc
      have hcc : c1 = c := by simpa using hc
      subst hcc
      obtain ⟨hp, pre, post, heq, hpre⟩ := find?_some_split _ _ _ h1
      exact ⟨0, by omega, hp, fun j hj => absurd hj (by omega), pre, post, heq, hpre⟩
    | none =>
      rw [h1] at hc
      dsimp only at hc
      have hall0 := find?_none_all _ _ h1
      cases h2 : chans.find? (fun x => lowerData x.name == lowerData term) with
      | some c2 =>
        rw [h2] at hc
        dsimp only at hc
        have hcc : c2 = c := by simpa using hc
        subst hcc
        obtain ⟨hp, pre, post, heq, hpre⟩ := find?_some_split _ _ _ h2
        refine ⟨1, by omega, hp, ?_, pre, post, heq, hpre⟩
        intro j hj x hx
        have hj0 : j = 0 := by omega
        subst hj0
        exact hall0 x hx
      | none =>
        rw [h2] at hc
        dsimp only at hc
        have hall1 := find?_none_all _ _ h2
        cases h3 : chans.find? (fun x => containsCh (lowerData term) (lowerData x.id)) with
        | some c3 =>
          rw [h3] at hc
          dsimp only at hc
          have hcc : c3 = c := by simpa using hc
          subst hcc
          obtain ⟨hp, pre, post, heq, hpre⟩ := find?_some_split _ _ _ h3
          refine ⟨2, by omega, hp, ?_, pre, post, heq, hpre⟩
          intro j hj x hx
          interval_cases j
          · exact hall0 x hx
          · exact hall1 x hx
        | none =>
          rw [h3] at hc
          dsimp only at hc
          have hall2 := find?_none_all _ _ h3
          obtain ⟨hp, pre, post, heq, hpre⟩ := find?_some_split _ _ _ hc
          refine ⟨3, by omega, hp, ?_, pre, post, heq, hpre⟩
          intro j hj x hx
          interval_cases j
          · exact hall0 x hx
          · exact hall1 x hx
          · exact hall2 x hx
  · intro hnone i hi x hx
    simp only [find_channel] at hnone
    cases h1 : chans.find? (fun x => lowerData x.id == lowerData term) with
    | some c1 =>
      rw [h1] at hnone
      exact absurd hnone (by simp)
    | none =>
      rw [h1] at hnone
      dsimp only at hnone
      have hall0 := find?_none_all _ _ h1
      cases h2 : chans.find? (fun x => lowerData x.name == lowerData term) with
      | some c2 =>
        rw [h2] at hnone
        exact absurd hnone (by simp)
      | none =>
        rw [h2] at hnone
        dsimp only at hnone
        have hall1 := find?_none_all _ _ h2
        cases h3 : chans.find? (fun x => containsCh (lowerData term) (lowerData x.id)) with
        | some c3 =>
          rw [h3] at hnone
          exact absurd hnone (by simp)
        | none =>
          rw [h3] at hnone
          dsimp only at hnone
          have hall2 := find?_none_all _ _ h3
          have hall3 := find?_none_all _ _ hnone
          interval_cases i
          · exact hall0 x hx
          · exact hall1 x hx
          · exact hall2 x hx
          · exact hall3 x hx

/-- Witness for C3: the spec's own example, a tier-0 exact id hit on the
second entry beating the tier-3 substring hit on the first entry. -/
theorem c3_resolution_witness :
    find_channel "RTP1" [⟨"AAA", "xxRTP1xx"⟩, ⟨"RTP1", "RTP 1"⟩] = some ⟨"RTP1", "RTP 1"⟩ :=
  (c3_resolution "RTP1" [⟨"AAA", "xxRTP1xx"⟩, ⟨"RTP1", "RTP 1"⟩]).2.2

/-! ## Stable-sort lemmas for the suggestion scorer -/

theorem insertPair_perm (x : Channel × Nat) (l : List (Channel × Nat)) :
    (insertPair x l).Perm (x :: l) := by
  induction l with
  | nil => exact List.Perm.refl _
  | cons y ys ih =>
    unfold insertPair
    by_cases h : y.2 ≤ x.2
    · rw [if_pos h]
    · rw [if_neg h]
      exact (ih.cons y).trans (List.Perm.swap x y ys)

theorem sortPairs_perm (l : List (Channel × Nat)) : (sortPairs l).Perm l := by
  induction l with
  | nil => exact List.Perm.refl _
  | cons x xs ih =>
    unfold sortPairs
    exact (insertPair_perm x (sortPairs xs)).trans (ih.cons x)

theorem insertPair_sorted (x : Channel × Nat) (l : List (Channel × Nat))
    (h : l.Pairwise (fun p q => q.2 ≤ p.2)) :
    (insertPair x l).Pairwise (fun p q => q.2 ≤ p.2) := by
  induction l with
  | nil => simp [insertPair]
  | cons y ys ih =>
    rcases List.pairwise_cons.mp h with ⟨hy, hys⟩
    unfold insertPair
    by_cases hc : y.2 ≤ x.2
    · rw [if_pos hc]
      refine List.pairwise_cons.mpr ⟨?_, h⟩
      intro z hz
      rcases List.mem_cons.mp hz with hzx | hz2
      · rw [hzx]
        exact hc
      · exact le_trans (hy z hz2) hc
    · rw [if_neg hc]
      refine List.pairwise_cons.mpr ⟨?_, ih hys⟩
      intro z hz
      have hz2 := (insertPair_perm x ys).mem_iff.mp hz
      rcases List.mem_cons.mp hz2 with hzx | hz3
      · rw [hzx]
        omega
      · exact hy z hz3

theorem sortPairs_sorted (l : List (Channel × Nat)) :
    (sortPairs l).Pairwise (fun p q => q.2 ≤ p.2) := by
  induction l with
  | nil => simp [sortPairs]
  | cons x xs ih => exact insertPair_sorted x (sortPairs xs) ih

theorem insertPair_filter (x : Channel × Nat) (l : List (Channel × Nat)) (sc : Nat) :
    (insertPair x l).filter (fun q => q.2 == sc) =
      if x.2 = sc then x :: l.filter (fun q => q.2 == sc)
      else l.filter (fun q => q.2 == sc) := by
  induction l with
  | nil =>
    unfold insertPair
    by_cases hx : x.2 = sc
    · simp [List.filter, hx]
    · have hxb : (x.2 == sc) = false := by simpa using hx
      simp [List.filter, hx, hxb]
  | cons y ys ih =>
    unfold insertPair
    by_cases hc : y.2 ≤ x.2
    · rw [if_pos hc]
      by_cases hx : x.2 = sc <;> simp [List.filter_cons, hx]
    · rw [if_neg hc]
      by_cases hy : y.2 = sc
      · have hx : ¬x.2 = sc := by omega
        simp [List.filter_cons, hy, hx, ih]
      · simp [List.filter_cons, hy, ih]

theorem sortPairs_filter (l : List (Channel × Nat)) (sc : Nat) :
    (sortPairs l).filter (fun q => q.2 == sc) = l.filter (fun q => q.2 == sc) := by
  induction l with
  | nil => rfl
  | cons x xs ih =>
    unfold sortPairs
    rw [insertPair_filter]
    by_cases hx : x.2 = sc
    · simp [List.filter_cons, hx, ih]
    · simp [List.filter_cons, hx, ih]

/-- Claim C4: `suggest_channels` scores each channel additively (id substring
+10, name substring +5, id prefix +15, name prefix +8), keeps exactly the
positive-scoring channels, sorts them stably by descending score and returns
at most the first `limit`: the returned list is the `limit`-prefix of a list
of scored pairs that is a permutation of the positive-scoring catalog pairs,
is sorted by descending score, and whose entries of each fixed score appear
exactly in catalog order (stability).  The final conjunct is the spec's
example: the prefix match `SIC` ranks above the non-prefix substring match
`RTPSicX`. -/
theorem c4_suggest (term : String) (chans : List Channel) (limit : Nat) :
    (∃ sorted : List (Channel × Nat),
      suggest_channels term chans limit = (sorted.take limit).map Prod.fst ∧
      sorted.Perm ((chans.map (fun c => (c, score (lowerData term) c))).filter
        (fun p => 0 < p.2)) ∧
      sorted.Pairwise (fun p q => q.2 ≤ p.2) ∧
      ∀ sc : Nat, sorted.filter (fun q => q.2 == sc) =
        ((chans.map (fun c => (c, score (lowerData term) c))).filter
          (fun p => 0 < p.2)).filter (fun q => q.2 == sc)) ∧
    suggest_channels "sic" [⟨"SIC", "A"⟩, ⟨"SIC_HD", "B"⟩, ⟨"RTPSicX", "C"⟩] 5 =
      [⟨"SIC", "A"⟩, ⟨"SIC_HD", "B"⟩, ⟨"RTPSicX", "C"⟩] :=
  ⟨⟨sortPairs ((chans.map (fun c => (c, score (lowerData term) c))).filter
      (fun p => 0 < p.2)),
    rfl, sortPairs_perm _, sortPairs_sorted _, fun sc => sortPairs_filter _ sc⟩,
    by decide⟩

/-- Witness for C4: the spec's suggestion-ordering example evaluated through
the theorem. -/
theorem c4_suggest_witness :
    suggest_channels "sic" [⟨"SIC", "A"⟩, ⟨"SIC_HD", "B"⟩, ⟨"RTPSicX", "C"⟩] 5 =
      [⟨"SIC", "A"⟩, ⟨"SIC_HD", "B"⟩, ⟨"RTPSicX", "C"⟩] :=
  (c4_suggest "sic" [⟨"SIC", "A"⟩, ⟨"SIC_HD", "B"⟩, ⟨"RTPSicX", "C"⟩] 5).2
